import Mathlib

/-!
# Verification of the connect4 engine core (`src/connect4/board.py`, `src/connect4/bot.py`)

Shallow embedding of the board data model, the position evaluator, and the
minimax search engine with its transposition cache, together with proofs of
the specified properties.

Conventions of the embedding:
* the Python grid `List[List[int]]` is a `List (List Nat)`; all reads go
  through `Board.getCell`, which models in-range indexing (every reachable
  index in the source is in range for a well-formed board);
* Python `float('-inf')` / `float('inf')` used for alpha/beta bounds become
  the two infinite elements of the `Score` type; every other score is an
  integer (`Score.val`), exactly as in the source where all finite scores
  are ints;
* Python's stable `sorted(keys, key=..., reverse=...)` is modelled by a
  stable insertion sort with the corresponding placement predicate;
* the mutated `self.transposition_table` dict is threaded through the
  search as an association list keyed by the grid (the board fingerprint),
  newest binding first, old bindings for the key removed on store;
* `Bot.get_move` returns `Option Int`: `some c` for a returned column,
  `some (-1)` for the no-move sentinel, and `none` models the
  `best_moves[0]` IndexError path (proved unreachable).
-/

namespace Connect4

/-- Cell constant `Board.EMPTY`. -/
def EMPTY : Nat := 0

/-- Cell constant `Board.PLAYER_1`. -/
def PLAYER_1 : Nat := 1

/-- Cell constant `Board.PLAYER_2`. -/
def PLAYER_2 : Nat := 2

/-- The board: dimensions plus the grid, `grid[row][col]`, row 0 on top. -/
structure Board where
  rows : Nat
  cols : Nat
  grid : List (List Nat)
deriving DecidableEq

/-- `Board.__init__`: an empty `rows × cols` grid. -/
def Board.init (rows cols : Nat) : Board :=
  ⟨rows, cols, List.replicate rows (List.replicate cols EMPTY)⟩

/-- Read `grid[r][c]`; out-of-range reads default to `EMPTY` (the source
only ever indexes in range on well-formed boards). -/
def Board.getCell (b : Board) (r c : Nat) : Nat :=
  (b.grid.getD r []).getD c EMPTY

/-- Write `grid[r][c] = v` (no-op when out of range, matching that the
source only writes in range). -/
def Board.setCell (b : Board) (r c v : Nat) : Board :=
  { b with grid := b.grid.set r ((b.grid.getD r []).set c v) }

/-- The scan `for row in range(rows - 1, -1, -1)` of `drop_piece`: the
counter `n` means rows `n-1, n-2, ..., 0` remain to be tried, so the first
call tries row `rows - 1`. -/
def Board.dropScan (b : Board) (col player : Nat) : Nat → Bool × Option Nat × Board
  | 0 => (false, none, b)
  | n + 1 =>
    if b.getCell n col = EMPTY then (true, some n, b.setCell n col player)
    else b.dropScan col player n

/-- `Board.drop_piece` (column indices are `Nat`, so the Python guard
`not 0 <= col < cols` is the single test `col ≥ cols`); returns
`(success, row, resulting board)`. -/
def Board.drop_piece (b : Board) (col player : Nat) : Bool × Option Nat × Board :=
  if col < b.cols then b.dropScan col player b.rows
  else (false, none, b)

/-- `Board.is_valid_move`. -/
def Board.is_valid_move (b : Board) (col : Nat) : Bool :=
  decide (col < b.cols) && decide (b.getCell 0 col = EMPTY)

/-- `Board.get_valid_moves`. -/
def Board.get_valid_moves (b : Board) : List Nat :=
  (List.range b.cols).filter fun col => b.is_valid_move col

/-- `Board.check_win`: four direction scans, any window of four equal to
`player`. -/
def Board.check_win (b : Board) (player : Nat) : Bool :=
  ((List.range b.rows).any fun row => (List.range (b.cols - 3)).any fun col =>
    (List.range 4).all fun i => b.getCell row (col + i) == player)
  || ((List.range (b.rows - 3)).any fun row => (List.range b.cols).any fun col =>
    (List.range 4).all fun i => b.getCell (row + i) col == player)
  || ((List.range (b.rows - 3)).any fun row => (List.range (b.cols - 3)).any fun col =>
    (List.range 4).all fun i => b.getCell (row + i) (col + i) == player)
  || ((List.range' 3 (b.rows - 3)).any fun row => (List.range (b.cols - 3)).any fun col =>
    (List.range 4).all fun i => b.getCell (row - i) (col + i) == player)

/-- `Board.is_full`. -/
def Board.is_full (b : Board) : Bool :=
  (List.range b.cols).all fun col => !(b.getCell 0 col == EMPTY)

/-- Well-formedness: the grid really is `rows` lists of `cols` cells. -/
def Board.WF (b : Board) : Prop :=
  b.grid.length = b.rows ∧ ∀ row ∈ b.grid, row.length = b.cols

/-- The standard board the evaluator supports. -/
def Board.WF6x7 (b : Board) : Prop :=
  b.rows = 6 ∧ b.cols = 7 ∧ b.WF

end Connect4

namespace Connect4

/-! ## Scores

Search scores: Python ints together with `float('-inf')` and
`float('inf')`. -/

/-- A search score: `negInf`/`posInf` model the Python infinite floats. -/
inductive Score where
  | negInf : Score
  | val : Int → Score
  | posInf : Score
deriving DecidableEq

/-- `a < b` on scores, as in Python float comparison. -/
def Score.lt : Score → Score → Bool
  | .negInf, .negInf => false
  | .negInf, _ => true
  | .val _, .negInf => false
  | .val a, .val b => decide (a < b)
  | .val _, .posInf => true
  | .posInf, _ => false

/-- `a <= b` on scores. -/
def Score.le : Score → Score → Bool
  | .negInf, _ => true
  | .val _, .negInf => false
  | .val a, .val b => decide (a ≤ b)
  | .val _, .posInf => true
  | .posInf, .posInf => true
  | .posInf, _ => false

/-- Python `max(a, b)` (returns `a` on ties, which is value-equal anyway). -/
def Score.max (a b : Score) : Score :=
  if Score.le b a then a else b

/-- Python `min(a, b)`. -/
def Score.min (a b : Score) : Score :=
  if Score.le a b then a else b

end Connect4

namespace Connect4

/-! ## The evaluator (`Bot._evaluate_position` and friends) -/

/-- `Bot.position_weights`. -/
def position_weights : List (List Int) :=
  [[3, 4, 5, 7, 5, 4, 3],
   [4, 6, 8, 10, 8, 6, 4],
   [5, 7, 9, 11, 9, 7, 5],
   [5, 7, 9, 11, 9, 7, 5],
   [6, 8, 10, 12, 10, 8, 6],
   [7, 9, 12, 15, 12, 9, 7]]

/-- `position_weights[r][c]` (always indexed in range in the source). -/
def weightAt (r c : Nat) : Int :=
  (position_weights.getD r []).getD c 0

/-- `Bot.horizontal_windows`: built by `_initialize_window_positions` with
the hard-coded standard dimensions `rows, cols = 6, 7`. -/
def horizontal_windows : List (Nat × Nat) :=
  (List.range 6).flatMap fun row => (List.range 4).map fun col => (row, col)

/-- `Bot.vertical_windows`. -/
def vertical_windows : List (Nat × Nat) :=
  (List.range 3).flatMap fun row => (List.range 7).map fun col => (row, col)

/-- `Bot.diagonal_down_windows`. -/
def diagonal_down_windows : List (Nat × Nat) :=
  (List.range 3).flatMap fun row => (List.range 4).map fun col => (row, col)

/-- `Bot.diagonal_up_windows` (`for row in range(3, rows)`). -/
def diagonal_up_windows : List (Nat × Nat) :=
  (List.range' 3 3).flatMap fun row => (List.range 4).map fun col => (row, col)

/-- The four window directions of `Bot._get_window_values`. -/
inductive Direction where
  | horizontal | vertical | diagonal_down | diagonal_up
deriving DecidableEq

/-- `Bot._get_window_values`. -/
def get_window_values (b : Board) (row col : Nat) : Direction → List Nat
  | .horizontal => (List.range 4).map fun i => b.getCell row (col + i)
  | .vertical => (List.range 4).map fun i => b.getCell (row + i) col
  | .diagonal_down => (List.range 4).map fun i => b.getCell (row + i) (col + i)
  | .diagonal_up => (List.range 4).map fun i => b.getCell (row - i) (col + i)

/-- `Bot._evaluate_window` for bot `p` and opponent `o`. -/
def evaluate_window (p o : Nat) (window : List Nat) : Int :=
  let bot_pieces := window.count p
  let opponent_pieces := window.count o
  let empty_pieces := window.count EMPTY
  if bot_pieces = 4 then 100
  else if bot_pieces = 3 ∧ empty_pieces = 1 then 10
  else if bot_pieces = 2 ∧ empty_pieces = 2 then 3
  else if opponent_pieces = 3 ∧ empty_pieces = 1 then (-50)
  else if opponent_pieces = 2 ∧ empty_pieces = 2 then (-5)
  else 0

/-- The per-cell positional contribution inside `_evaluate_position`. -/
def positional_cell (p o cell : Nat) (w : Int) : Int :=
  if cell = p then w else if cell = o then -w else 0

/-- The positional-weights double loop of `_evaluate_position`. -/
def positional_score (b : Board) (p o : Nat) : Int :=
  ((List.range b.rows).map fun row =>
    ((List.range b.cols).map fun col =>
      positional_cell p o (b.getCell row col) (weightAt row col)).sum).sum

/-- One `for row, col in windows: score += _evaluate_window(...)` loop. -/
def window_fold (b : Board) (p o : Nat) (ws : List (Nat × Nat)) (dir : Direction) : Int :=
  (ws.map fun rc => evaluate_window p o (get_window_values b rc.1 rc.2 dir)).sum

/-- The center-column bonus of `_evaluate_position`. -/
def center_bonus (b : Board) (p : Nat) : Int :=
  ((((List.range b.rows).map fun row => b.getCell row (b.cols / 2)).count p : Int)) * 3

/-- `Bot._evaluate_position` for bot `p`, opponent `o`. -/
def evaluate_position (b : Board) (p o : Nat) : Int :=
  positional_score b p o
    + window_fold b p o horizontal_windows .horizontal
    + window_fold b p o vertical_windows .vertical
    + window_fold b p o diagonal_down_windows .diagonal_down
    + window_fold b p o diagonal_up_windows .diagonal_up
    + center_bonus b p

end Connect4

namespace Connect4

/-! ## The search engine (`Bot.get_move`, `Bot._minimax`) -/

/-- Bound kinds stored in the transposition table
(`'exact'`, `'lower'`, `'upper'`). -/
inductive BoundKind where
  | exact | lower | upper
deriving DecidableEq

/-- A transposition entry `(depth, score, value_type)`. -/
structure TTEntry where
  depth : Nat
  value : Score
  kind : BoundKind
deriving DecidableEq

/-- The board fingerprint `Bot._get_board_hash` (tuple of tuples of the
grid rows — i.e. the grid contents themselves). -/
def board_hash (b : Board) : List (List Nat) :=
  b.grid

/-- The transposition table, a mapping from fingerprints to entries
(newest binding first; `ttStore` removes older bindings for the key). -/
abbrev TT := List (List (List Nat) × TTEntry)

/-- Dict lookup `self.transposition_table.get(h)`. -/
def ttGet (t : TT) (h : List (List Nat)) : Option TTEntry :=
  (List.find? (fun e => e.1 = h) t).map (fun e => e.2)

/-- Dict assignment `self.transposition_table[h] = entry`. -/
def ttStore (t : TT) (h : List (List Nat)) (e : TTEntry) : TT :=
  (h, e) :: List.filter (fun x => !(x.1 = h : Bool)) t

/-- Result of consulting the table at a node: either an early return or
possibly tightened `(alpha, beta)` bounds. -/
inductive TTProbe where
  | ret : Score → TTProbe
  | go : Score → Score → TTProbe

/-- The transposition-table consultation block at the top of `_minimax`,
given the entry bounds `(alpha, beta)`.  With `useCache = false` it is the
no-op cache: every lookup misses. -/
def ttLookup (useCache : Bool) (t : TT) (h : List (List Nat)) (depth : Nat)
    (alpha beta : Score) : TTProbe :=
  match (if useCache then ttGet t h else none) with
  | none => .go alpha beta
  | some e =>
    if e.depth ≥ depth then
      if e.kind = .exact then .ret e.value
      else
        let alpha' := if e.kind = .lower ∧ Score.lt alpha e.value then e.value else alpha
        let beta' := if e.kind = .upper ∧ Score.lt e.value beta then e.value else beta
        if Score.le beta' alpha' then .ret e.value else .go alpha' beta'
    else .go alpha beta

/-- The bound classification performed at the store step of `_minimax`:
`value_type = 'exact'`, overwritten to `'upper'` if `v ≤ alpha`, else to
`'lower'` if `v ≥ beta` — where `alpha` and `beta` are the (loop-updated)
bounds in scope at the store. -/
def storeKind (v alpha beta : Score) : BoundKind :=
  if Score.le v alpha then .upper
  else if Score.le beta v then .lower
  else .exact

/-- Python stable insertion: place `x` before the first `y` such that
`before x y` (so `before` must hold on ties to preserve the original
order, `x` being originally leftmost). -/
def insertBefore (before : Nat → Nat → Bool) (x : Nat) : List Nat → List Nat
  | [] => [x]
  | y :: l => if before x y then x :: y :: l else y :: insertBefore before x l

/-- Python's stable `sorted`: `before x y` says `x` may be placed before
`y` (it must hold on key ties). -/
def stableSort (before : Nat → Nat → Bool) : List Nat → List Nat
  | [] => []
  | x :: l => insertBefore before x (stableSort before l)

/-- `move_scores` of a node: the association `col → one-ply evaluation`
over the valid moves whose simulated drop succeeded (insertion order =
ascending column, as `dict` preserves it). -/
def move_scores (b : Board) (p o : Nat) (mover : Nat) : List (Nat × Int) :=
  b.get_valid_moves.filterMap fun col =>
    let (ok, _, nb) := b.drop_piece col mover
    if ok then some (col, evaluate_position nb p o) else none

/-- `dict.get`-style read of `move_scores` (keys are distinct; total on
the keys list, defaulting to 0 elsewhere — never used off-key). -/
def scoreOf (ms : List (Nat × Int)) (col : Nat) : Int :=
  ((ms.find? fun e => e.1 = col).map (fun e => e.2)).getD 0

/-- `sorted(move_scores.keys(), key=lambda c: move_scores[c], reverse=r)`:
stable sort of the keys, descending when `r = true`, ascending otherwise. -/
def sortMoves (ms : List (Nat × Int)) (r : Bool) : List Nat :=
  stableSort
    (fun x y => if r then decide (scoreOf ms y ≤ scoreOf ms x)
                else decide (scoreOf ms x ≤ scoreOf ms y))
    (ms.map fun e => e.1)

/-- The maximizing `for col in sorted_moves` loop body of `_minimax`:
accumulates `(max_eval, alpha)`, breaking when `beta <= alpha`. -/
def maxLoop (p : Nat) (child : Board → Score → Score → TT → Score × TT)
    (b : Board) (beta : Score) :
    List Nat → Score → Score → TT → Score × Score × TT
  | [], maxEval, alpha, t => (maxEval, alpha, t)
  | col :: rest, maxEval, alpha, t =>
    let (ok, _, nb) := b.drop_piece col p
    if ok then
      let (ev, t') := child nb alpha beta t
      let maxEval' := Score.max maxEval ev
      let alpha' := Score.max alpha ev
      if Score.le beta alpha' then (maxEval', alpha', t')
      else maxLoop p child b beta rest maxEval' alpha' t'
    else maxLoop p child b beta rest maxEval alpha t

/-- The minimizing loop of `_minimax`: accumulates `(min_eval, beta)`,
breaking when `beta <= alpha`. -/
def minLoop (o : Nat) (child : Board → Score → Score → TT → Score × TT)
    (b : Board) (alpha : Score) :
    List Nat → Score → Score → TT → Score × Score × TT
  | [], minEval, beta, t => (minEval, beta, t)
  | col :: rest, minEval, beta, t =>
    let (ok, _, nb) := b.drop_piece col o
    if ok then
      let (ev, t') := child nb alpha beta t
      let minEval' := Score.min minEval ev
      let beta' := Score.min beta ev
      if Score.le beta' alpha then (minEval', beta', t')
      else minLoop o child b alpha rest minEval' beta' t'
    else minLoop o child b alpha rest minEval beta t

/-- `Bot._minimax` for bot `p`, opponent `o`; `useCache = false` replaces
the transposition table by the no-op cache (lookups miss, stores are
discarded).  Returns the score and the table after the call. -/
def minimax (p o : Nat) (useCache : Bool) :
    Nat → Board → Score → Score → Bool → TT → Score × TT
  | 0, b, _, _, _, t =>
    if b.check_win p then (.val 1000, t)
    else if b.check_win o then (.val (-1000), t)
    else (.val (evaluate_position b p o), t)
  | depth + 1, b, alpha, beta, is_maximizing, t =>
    if b.check_win p then (.val (1000 + (depth + 1 : Int)), t)
    else if b.check_win o then (.val (-1000 - (depth + 1 : Int)), t)
    else if b.is_full then (.val (evaluate_position b p o), t)
    else
      let h := board_hash b
      match ttLookup useCache t h (depth + 1) alpha beta with
      | .ret v => (v, t)
      | .go alpha' beta' =>
        let mover := if is_maximizing then p else o
        let sorted := sortMoves (move_scores b p o mover) is_maximizing
        if is_maximizing then
          let (maxEval, alphaF, t') :=
            maxLoop p (fun nb a bt tt => minimax p o useCache depth nb a bt false tt)
              b beta' sorted .negInf alpha' t
          let e : TTEntry := ⟨depth + 1, maxEval, storeKind maxEval alphaF beta'⟩
          ((maxEval, if useCache then ttStore t' h e else t') : Score × TT)
        else
          let (minEval, betaF, t') :=
            minLoop o (fun nb a bt tt => minimax p o useCache depth nb a bt true tt)
              b alpha' sorted .posInf beta' t
          let e : TTEntry := ⟨depth + 1, minEval, storeKind minEval alpha' betaF⟩
          ((minEval, if useCache then ttStore t' h e else t') : Score × TT)

/-- The immediate win/block scan of `get_move`: first valid column whose
simulated drop of `player` wins for `player`. -/
def immediate_win (b : Board) (player : Nat) : Option Nat :=
  b.get_valid_moves.find? fun col =>
    let (ok, _, nb) := b.drop_piece col player
    ok && nb.check_win player

/-- The root loop of `get_move`: tracks `(best_score, best_moves, alpha)`
(beta stays `+inf` at the root) and threads the table. -/
def rootLoop (p o : Nat) (useCache : Bool) (d : Nat) (b : Board) :
    List Nat → Score → List Nat → Score → TT → Score × List Nat × TT
  | [], best, bm, _, t => (best, bm, t)
  | col :: rest, best, bm, alpha, t =>
    let (ok, _, nb) := b.drop_piece col p
    if ok then
      let (score, t') := minimax p o useCache d nb alpha .posInf false t
      let (best', bm') :=
        if Score.lt best score then (score, [col])
        else if score = best then (best, bm ++ [col])
        else (best, bm)
      rootLoop p o useCache d b rest best' bm' (Score.max alpha best') t'
    else rootLoop p o useCache d b rest best bm alpha t

/-- `(best_score, best_moves)` after the root search of `get_move`. -/
def root_result (p o : Nat) (useCache : Bool) (search_depth : Nat) (b : Board) :
    Score × List Nat :=
  let sorted := sortMoves (move_scores b p o p) true
  let (best, bm, _) :=
    rootLoop p o useCache (search_depth - 1) b sorted .negInf [] .negInf []
  (best, bm)

/-- Distance to the center column used by the final tie-break. -/
def centerDist (cols col : Nat) : Nat :=
  Int.natAbs ((col : Int) - (cols / 2 : Nat))

/-- `best_moves` after the tie-break
`best_moves.sort(key=lambda col: abs(col - cols // 2))` (applied only when
there are at least two best moves). -/
def tieBroken (cols : Nat) (bm : List Nat) : List Nat :=
  if 1 < bm.length then
    stableSort (fun x y => decide (centerDist cols x ≤ centerDist cols y)) bm
  else bm

/-- `Bot.get_move` for bot `p`, opponent `o` and the given `search_depth`;
`useCache` selects the real transposition table or the no-op cache.
`some (-1)` is the no-valid-move sentinel; `none` models the IndexError
of `best_moves[0]` on an empty list (proved unreachable). -/
def get_move (p o : Nat) (useCache : Bool) (search_depth : Nat) (b : Board) :
    Option Int :=
  if b.get_valid_moves.isEmpty then some (-1)
  else match immediate_win b p with
  | some col => some (col : Int)
  | none => match immediate_win b o with
    | some col => some (col : Int)
    | none =>
      let (_, bm) := root_result p o useCache search_depth b
      (tieBroken b.cols bm).head?.map fun c => (c : Int)

end Connect4

namespace Connect4

/-! ## Board lemmas -/

theorem getD_set_self {α : Type} (l : List α) (i : Nat) (v d : α) (h : i < l.length) :
    (l.set i v).getD i d = v := by
  rw [List.getD_eq_getElem _ _ (by simpa using h)]
  exact List.getElem_set_self _

theorem getD_set_ne {α : Type} (l : List α) (i j : Nat) (v d : α) (h : i ≠ j) :
    (l.set i v).getD j d = l.getD j d := by
  rw [List.getD_eq_getD_get?, List.getD_eq_getD_get?, List.get?_eq_getElem?,
    List.get?_eq_getElem?, List.getElem?_set_ne h]

theorem Board.rows_setCell (b : Board) (r c v : Nat) : (b.setCell r c v).rows = b.rows := rfl

theorem Board.cols_setCell (b : Board) (r c v : Nat) : (b.setCell r c v).cols = b.cols := rfl

theorem getCell_setCell_self (b : Board) (r c v : Nat)
    (hr : r < b.grid.length) (hc : c < (b.grid.getD r []).length) :
    (b.setCell r c v).getCell r c = v := by
  unfold Board.setCell Board.getCell
  simp only
  rw [getD_set_self _ _ _ _ hr, getD_set_self _ _ _ _ hc]

theorem getCell_setCell_other (b : Board) (r c v x y : Nat) (h : ¬(x = r ∧ y = c)) :
    (b.setCell r c v).getCell x y = b.getCell x y := by
  unfold Board.setCell Board.getCell
  simp only
  by_cases hxr : x = r
  · subst hxr
    have hyc : y ≠ c := fun hy => h ⟨rfl, hy⟩
    by_cases hr : x < b.grid.length
    · rw [getD_set_self _ _ _ _ hr, getD_set_ne _ _ _ _ _ (Ne.symm hyc)]
    · have h1 : b.grid.length ≤ x := Nat.le_of_not_lt hr
      have e1 : (b.grid.set x ((b.grid.getD x []).set c v)).getD x [] = ([] : List Nat) :=
        List.getD_eq_default _ _ (by simpa using h1)
      have e2 : b.grid.getD x [] = ([] : List Nat) := List.getD_eq_default _ _ h1
      rw [e1, e2]
  · rw [getD_set_ne _ _ _ _ _ (fun hh => hxr hh.symm)]

theorem dropScan_false (b : Board) (col player : Nat) (n : Nat)
    (h : (b.dropScan col player n).1 = false) :
    b.dropScan col player n = (false, none, b) := by
  induction n with
  | zero => rfl
  | succ n ih =>
    unfold Board.dropScan at h ⊢
    by_cases hc : b.getCell n col = EMPTY
    · simp [hc] at h
    · simpa [hc] using ih (by simpa [hc] using h)

theorem dropScan_true_iff (b : Board) (col player : Nat) (n : Nat) :
    (b.dropScan col player n).1 = true ↔ ∃ r, r < n ∧ b.getCell r col = EMPTY := by
  induction n with
  | zero => simp [Board.dropScan]
  | succ n ih =>
    unfold Board.dropScan
    by_cases hc : b.getCell n col = EMPTY
    · simp only [hc, if_pos rfl]
      exact ⟨fun _ => ⟨n, Nat.lt_succ_self n, hc⟩, fun _ => rfl⟩
    · simp only [hc, if_neg hc]
      constructor
      · intro h
        obtain ⟨r, hr, he⟩ := ih.mp h
        exact ⟨r, Nat.lt_succ_of_lt hr, he⟩
      · intro ⟨r, hr, he⟩
        refine ih.mpr ⟨r, ?_, he⟩
        rcases Nat.lt_succ_iff_lt_or_eq.mp hr with h | h
        · exact h
        · exact absurd (h ▸ he) hc

theorem dropScan_success (b : Board) (col player : Nat) (n : Nat)
    (h : (b.dropScan col player n).1 = true) :
    ∃ r, r < n ∧ b.dropScan col player n = (true, some r, b.setCell r col player)
      ∧ b.getCell r col = EMPTY
      ∧ ∀ r', r < r' → r' < n → b.getCell r' col ≠ EMPTY := by
  induction n with
  | zero => simp [Board.dropScan] at h
  | succ n ih =>
    unfold Board.dropScan at h ⊢
    by_cases hc : b.getCell n col = EMPTY
    · refine ⟨n, Nat.lt_succ_self n, by simp [hc], hc, ?_⟩
      intro r' h1 h2
      omega
    · simp only [hc, if_neg hc] at h ⊢
      obtain ⟨r, hr, heq, he, habove⟩ := ih h
      refine ⟨r, Nat.lt_succ_of_lt hr, heq, he, ?_⟩
      intro r' h1 h2
      rcases Nat.lt_succ_iff_lt_or_eq.mp h2 with h3 | h3
      · exact habove r' h1 h3
      · exact h3 ▸ hc

end Connect4

namespace Connect4

/-! ## drop_piece characterization (C6 support) -/

theorem drop_piece_false (b : Board) (col player : Nat)
    (h : (b.drop_piece col player).1 = false) :
    b.drop_piece col player = (false, none, b) := by
  unfold Board.drop_piece at h ⊢
  by_cases hc : col < b.cols
  · simpa [hc] using dropScan_false b col player b.rows (by simpa [hc] using h)
  · simp [hc]

theorem drop_piece_true_iff (b : Board) (col player : Nat) :
    (b.drop_piece col player).1 = true ↔
      col < b.cols ∧ ∃ r, r < b.rows ∧ b.getCell r col = EMPTY := by
  unfold Board.drop_piece
  by_cases hc : col < b.cols
  · simpa [hc] using dropScan_true_iff b col player b.rows
  · simp [hc]

theorem drop_piece_success (b : Board) (col player : Nat)
    (h : (b.drop_piece col player).1 = true) :
    ∃ r, r < b.rows ∧ b.drop_piece col player = (true, some r, b.setCell r col player)
      ∧ b.getCell r col = EMPTY
      ∧ ∀ r', r < r' → r' < b.rows → b.getCell r' col ≠ EMPTY := by
  unfold Board.drop_piece at h ⊢
  by_cases hc : col < b.cols
  · simpa [hc] using dropScan_success b col player b.rows (by simpa [hc] using h)
  · simp [hc] at h

theorem WF_setCell (b : Board) (r c v : Nat) (hwf : b.WF) : (b.setCell r c v).WF := by
  obtain ⟨hlen, hrow⟩ := hwf
  refine ⟨?_, ?_⟩
  · show (b.grid.set r ((b.grid.getD r []).set c v)).length = b.rows
    simpa using hlen
  · intro row hm
    have hm' : row ∈ b.grid.set r ((b.grid.getD r []).set c v) := hm
    by_cases hr : r < b.grid.length
    · rcases List.mem_or_eq_of_mem_set hm' with h | h
      · exact hrow row h
      · subst h
        show ((b.grid.getD r []).set c v).length = b.cols
        rw [List.length_set, List.getD_eq_getElem _ _ hr]
        exact hrow _ (List.getElem_mem hr)
    · rw [List.set_eq_of_length_le (Nat.le_of_not_lt hr)] at hm'
      exact hrow row hm'

end Connect4

namespace Connect4

theorem WF_drop_piece (b : Board) (col player : Nat) (hwf : b.WF) :
    (b.drop_piece col player).2.2.WF ∧ (b.drop_piece col player).2.2.rows = b.rows
      ∧ (b.drop_piece col player).2.2.cols = b.cols := by
  cases hok : (b.drop_piece col player).1 with
  | false => rw [drop_piece_false b col player hok]; exact ⟨hwf, rfl, rfl⟩
  | true =>
    obtain ⟨r, _, heq, _⟩ := drop_piece_success b col player hok
    rw [heq]
    exact ⟨WF_setCell b r col player hwf, rfl, rfl⟩

/-- C6: `drop_piece(col, player)` succeeds, returning `(True, r)` and
setting exactly cell `(r, col)` to `player` where `r` is the lowest empty
row of column `col` (the greatest empty row index, all rows below it being
occupied), if and only if `col < cols` and the column has an empty cell;
in every failure case it returns `(False, None)` and the board is left
completely unchanged. -/
theorem drop_piece_spec (b : Board) (col player : Nat) (hwf : b.WF) :
    ((b.drop_piece col player).1 = true ↔
      col < b.cols ∧ ∃ r, r < b.rows ∧ b.getCell r col = EMPTY)
    ∧ ((b.drop_piece col player).1 = false →
      b.drop_piece col player = (false, none, b))
    ∧ ((b.drop_piece col player).1 = true →
      ∃ r, (b.drop_piece col player).2.1 = some r ∧ r < b.rows
        ∧ b.getCell r col = EMPTY
        ∧ (∀ r', r < r' → r' < b.rows → b.getCell r' col ≠ EMPTY)
        ∧ (b.drop_piece col player).2.2.getCell r col = player
        ∧ (∀ x y, ¬(x = r ∧ y = col) →
            (b.drop_piece col player).2.2.getCell x y = b.getCell x y)) := by
  refine ⟨drop_piece_true_iff b col player, drop_piece_false b col player, ?_⟩
  intro hok
  obtain ⟨r, hr, heq, hemp, habove⟩ := drop_piece_success b col player hok
  have hcols : col < b.cols := ((drop_piece_true_iff b col player).mp hok).1
  obtain ⟨hlen, hrowlen⟩ := hwf
  have hrlen : r < b.grid.length := by omega
  have hclen : col < (b.grid.getD r []).length := by
    rw [List.getD_eq_getElem _ _ hrlen]
    rw [hrowlen _ (List.getElem_mem hrlen)]
    exact hcols
  refine ⟨r, by rw [heq], hr, hemp, habove, ?_, ?_⟩
  · rw [heq]
    exact getCell_setCell_self b r col player hrlen hclen
  · intro x y hxy
    rw [heq]
    exact getCell_setCell_other b r col player x y hxy

/-- Witness for C6 at a concrete board. -/
theorem drop_piece_spec_witness :
    let b : Board := ⟨6, 7, [[0,0,0,0,0,0,0],[0,0,0,0,0,0,0],[0,0,0,0,0,0,0],
      [0,0,0,0,0,0,0],[0,0,0,0,0,0,0],[0,0,0,2,0,0,0]]⟩
    ((b.drop_piece 3 1).1 = true ↔
      3 < b.cols ∧ ∃ r, r < b.rows ∧ b.getCell r 3 = EMPTY)
    ∧ ((b.drop_piece 3 1).1 = false → b.drop_piece 3 1 = (false, none, b))
    ∧ ((b.drop_piece 3 1).1 = true →
      ∃ r, (b.drop_piece 3 1).2.1 = some r ∧ r < b.rows
        ∧ b.getCell r 3 = EMPTY
        ∧ (∀ r', r < r' → r' < b.rows → b.getCell r' 3 ≠ EMPTY)
        ∧ (b.drop_piece 3 1).2.2.getCell r 3 = 1
        ∧ (∀ x y, ¬(x = r ∧ y = 3) →
            (b.drop_piece 3 1).2.2.getCell x y = b.getCell x y)) :=
  drop_piece_spec _ 3 1 (by constructor <;> decide)

end Connect4

namespace Connect4

/-! ## Gravity invariant (C9) -/

/-- No cell is empty while the cell directly below it (same column) is
occupied: occupied cells are supported from below. -/
def Gravity (b : Board) : Prop :=
  ∀ r c, r + 1 < b.rows → b.getCell r c ≠ EMPTY → b.getCell (r + 1) c ≠ EMPTY

/-- Apply a sequence of `drop_piece(col, player)` calls, keeping each
resulting board (failed drops leave the board unchanged). -/
def applyDrops (b : Board) : List (Nat × Nat) → Board
  | [] => b
  | (col, player) :: rest => applyDrops (b.drop_piece col player).2.2 rest

theorem gravity_drop_piece (b : Board) (col player : Nat) (hg : Gravity b) :
    Gravity ((b.drop_piece col player).2.2) := by
  cases hok : (b.drop_piece col player).1 with
  | false => rw [drop_piece_false b col player hok]; exact hg
  | true =>
    obtain ⟨r, hr, heq, hemp, habove⟩ := drop_piece_success b col player hok
    rw [heq]
    intro x y hx hocc
    show (b.setCell r col player).getCell (x + 1) y ≠ EMPTY
    have hrows : (b.setCell r col player).rows = b.rows := rfl
    rw [hrows] at hx
    by_cases hbelow : x + 1 = r ∧ y = col
    · obtain ⟨hx1, hy⟩ := hbelow
      subst hy
      have hxr : ¬(x = r ∧ y = y) := by omega
      rw [getCell_setCell_other b r y player x y hxr] at hocc
      have : b.getCell (x + 1) y ≠ EMPTY := hg x y hx hocc
      rw [hx1] at this
      exact absurd hemp this
    · rw [getCell_setCell_other b r col player (x + 1) y hbelow]
      by_cases hcur : x = r ∧ y = col
      · obtain ⟨hx1, hy⟩ := hcur
        subst hx1; subst hy
        exact habove (x + 1) (Nat.lt_succ_self x) hx
      · rw [getCell_setCell_other b r col player x y hcur] at hocc
        exact hg x y hx hocc

theorem gravity_applyDrops (b : Board) (cmds : List (Nat × Nat)) (hg : Gravity b) :
    Gravity (applyDrops b cmds) := by
  induction cmds generalizing b with
  | nil => exact hg
  | cons cmd rest ih =>
    obtain ⟨col, player⟩ := cmd
    exact ih _ (gravity_drop_piece b col player hg)

theorem getCell_init (rows cols r c : Nat) : (Board.init rows cols).getCell r c = EMPTY := by
  unfold Board.init Board.getCell
  simp only
  by_cases hr : r < rows
  · have h1 : (List.replicate rows (List.replicate cols EMPTY)).getD r [] =
        List.replicate cols EMPTY := by
      rw [List.getD_eq_getElem _ _ (by simpa using hr)]
      exact List.getElem_replicate _ _
    rw [h1]
    by_cases hc : c < cols
    · rw [List.getD_eq_getElem _ _ (by simpa using hc)]
      exact List.getElem_replicate _ _
    · exact List.getD_eq_default _ _ (by simpa using Nat.le_of_not_lt hc)
  · have h1 : (List.replicate rows (List.replicate cols EMPTY)).getD r [] = ([] : List Nat) :=
      List.getD_eq_default _ _ (by simpa using Nat.le_of_not_lt hr)
    rw [h1]
    rfl

/-- C9: starting from the empty board, after every sequence of
`drop_piece` calls (failed calls leaving the board unchanged), no cell is
empty while the cell directly below it in the same column is occupied. -/
theorem gravity_invariant (rows cols : Nat) (cmds : List (Nat × Nat)) :
    Gravity (applyDrops (Board.init rows cols) cmds) := by
  refine gravity_applyDrops _ cmds ?_
  intro r c _ hocc
  exact absurd (getCell_init rows cols r c) hocc

/-- Witness for C9 on a concrete drop sequence. -/
theorem gravity_invariant_witness :
    Gravity (applyDrops (Board.init 6 7) [(3, 1), (3, 2), (0, 1), (9, 2), (3, 1)]) :=
  gravity_invariant 6 7 [(3, 1), (3, 2), (0, 1), (9, 2), (3, 1)]

end Connect4

namespace Connect4

/-! ## Valid moves, immediate win (C4) -/

theorem mem_get_valid_moves (b : Board) (col : Nat) :
    col ∈ b.get_valid_moves ↔ col < b.cols ∧ b.getCell 0 col = EMPTY := by
  unfold Board.get_valid_moves Board.is_valid_move
  simp [List.mem_filter, List.mem_range]

theorem get_valid_moves_sorted (b : Board) :
    List.Pairwise (· < ·) b.get_valid_moves :=
  List.Pairwise.sublist (List.filter_sublist _) (List.pairwise_lt_range b.cols)

theorem find?_sorted_min {p : Nat → Bool} :
    ∀ {l : List Nat}, List.Pairwise (· < ·) l → ∀ {c : Nat}, l.find? p = some c →
      ∀ x ∈ l, p x = true → c ≤ x := by
  intro l
  induction l with
  | nil => intro _ c h; simp at h
  | cons a t ih =>
    intro hs c h x hx hpx
    by_cases hpa : p a
    · rw [List.find?_cons_of_pos _ hpa] at h
      cases h
      rcases List.mem_cons.mp hx with rfl | hxt
      · exact Nat.le_refl _
      · exact Nat.le_of_lt ((List.pairwise_cons.mp hs).1 x hxt)
    · rw [List.find?_cons_of_neg _ (by simpa using hpa)] at h
      rcases List.mem_cons.mp hx with rfl | hxt
      · exact absurd hpx hpa
      · exact ih (List.pairwise_cons.mp hs).2 h x hxt hpx

/-- The immediate-win predicate of the `get_move` win/block scans. -/
def wins_at (b : Board) (player col : Nat) : Bool :=
  (b.drop_piece col player).1 && (b.drop_piece col player).2.2.check_win player

theorem immediate_win_eq_find (b : Board) (player : Nat) :
    immediate_win b player = b.get_valid_moves.find? (wins_at b player) := by
  unfold immediate_win wins_at
  rfl

theorem immediate_win_isSome (b : Board) (player : Nat)
    (h : ∃ col ∈ b.get_valid_moves, wins_at b player col = true) :
    ∃ c, immediate_win b player = some c := by
  rw [immediate_win_eq_find]
  obtain ⟨col, hm, hw⟩ := h
  rcases hfind : b.get_valid_moves.find? (wins_at b player) with _ | c
  · rw [List.find?_eq_none] at hfind
    exact absurd hw (by simpa using hfind col hm)
  · exact ⟨c, rfl⟩

/-- C4: if at least one legal column, when played by the bot, produces a
winning board, then `get_move` returns the smallest such column, for every
search depth ≥ 1 and with or without the cache. -/
theorem get_move_immediate_win (b : Board) (p o : Nat) (useCache : Bool) (d : Nat)
    (hd : 1 ≤ d) (hwin : ∃ col ∈ b.get_valid_moves, wins_at b p col = true) :
    ∃ c : Nat, get_move p o useCache d b = some (c : Int) ∧ c ∈ b.get_valid_moves
      ∧ wins_at b p c = true
      ∧ ∀ x ∈ b.get_valid_moves, wins_at b p x = true → c ≤ x := by
  obtain ⟨c, hc⟩ := immediate_win_isSome b p hwin
  have hfind := immediate_win_eq_find b p ▸ hc
  have hmem : c ∈ b.get_valid_moves := List.mem_of_find?_eq_some hfind
  have hne : ¬b.get_valid_moves.isEmpty := by
    rcases hwin with ⟨col, hm, _⟩
    simp [List.isEmpty_iff]
    exact List.ne_nil_of_mem hm
  refine ⟨c, ?_, hmem, List.find?_some hfind,
    find?_sorted_min (get_valid_moves_sorted b) hfind⟩
  unfold get_move
  rw [if_neg hne, hc]

/-- Witness for C4: three bot pieces on the bottom row, win at column 3. -/
theorem get_move_immediate_win_witness :
    let b : Board := ⟨6, 7, [[0,0,0,0,0,0,0],[0,0,0,0,0,0,0],[0,0,0,0,0,0,0],
      [0,0,0,0,0,0,0],[0,0,0,0,0,0,0],[1,1,1,0,0,0,2]]⟩
    ∃ c : Nat, get_move 1 2 true 6 b = some (c : Int) ∧ c ∈ b.get_valid_moves
      ∧ wins_at b 1 c = true
      ∧ ∀ x ∈ b.get_valid_moves, wins_at b 1 x = true → c ≤ x :=
  get_move_immediate_win _ 1 2 true 6 (by decide) ⟨3, by decide, by decide⟩

end Connect4

namespace Connect4

/-! ## Root-search safety (C10, C7 support) -/

theorem drop_succeeds_of_valid (b : Board) (col player : Nat) (hrows : 1 ≤ b.rows)
    (h : col ∈ b.get_valid_moves) : (b.drop_piece col player).1 = true := by
  rw [drop_piece_true_iff]
  obtain ⟨hc, htop⟩ := (mem_get_valid_moves b col).mp h
  exact ⟨hc, 0, hrows, htop⟩

theorem mem_insertBefore (before : Nat → Nat → Bool) (x : Nat) :
    ∀ (l : List Nat) (y : Nat), y ∈ insertBefore before x l ↔ y = x ∨ y ∈ l := by
  intro l
  induction l with
  | nil => intro y; simp [insertBefore]
  | cons a t ih =>
    intro y
    unfold insertBefore
    by_cases hb : before x a
    · simp [hb]
    · rw [if_neg hb, List.mem_cons, ih y, List.mem_cons]
      tauto

theorem mem_stableSort (before : Nat → Nat → Bool) :
    ∀ (l : List Nat) (y : Nat), y ∈ stableSort before l ↔ y ∈ l := by
  intro l
  induction l with
  | nil => intro y; simp [stableSort]
  | cons a t ih =>
    intro y
    unfold stableSort
    rw [mem_insertBefore, ih y, List.mem_cons]

theorem stableSort_ne_nil (before : Nat → Nat → Bool) (l : List Nat) (h : l ≠ []) :
    stableSort before l ≠ [] := by
  obtain ⟨a, ha⟩ := List.exists_mem_of_ne_nil l h
  intro hs
  have := (mem_stableSort before l a).mpr ha
  rw [hs] at this
  simp at this

theorem filterMap_eq_map_of_forall {α β : Type} (f : α → Option β) (g : α → β) :
    ∀ l : List α, (∀ a ∈ l, f a = some (g a)) → l.filterMap f = l.map g := by
  intro l
  induction l with
  | nil => intro _; rfl
  | cons a t ih =>
    intro h
    rw [List.filterMap_cons, h a (List.mem_cons_self a t), List.map_cons,
      ih fun x hx => h x (List.mem_cons_of_mem a hx)]

theorem move_scores_keys (b : Board) (p o mover : Nat) (hrows : 1 ≤ b.rows) :
    (move_scores b p o mover).map (fun e => e.1) = b.get_valid_moves := by
  unfold move_scores
  rw [filterMap_eq_map_of_forall _
    (fun col => (col, evaluate_position (b.drop_piece col mover).2.2 p o))]
  · have : ((fun e : Nat × Int => e.1) ∘
        fun col => (col, evaluate_position (b.drop_piece col mover).2.2 p o)) =
        fun col : Nat => col := rfl
    rw [List.map_map, this]
    simp
  · intro col hm
    have hok := drop_succeeds_of_valid b col mover hrows hm
    rcases h : b.drop_piece col mover with ⟨ok, r, nb⟩
    rw [h] at hok
    simp only at hok
    subst hok
    simp [h]

theorem mem_sortMoves (b : Board) (p o mover : Nat) (r : Bool) (hrows : 1 ≤ b.rows)
    (col : Nat) : col ∈ sortMoves (move_scores b p o mover) r ↔ col ∈ b.get_valid_moves := by
  unfold sortMoves
  rw [mem_stableSort, move_scores_keys b p o mover hrows]

theorem sortMoves_ne_nil (b : Board) (p o mover : Nat) (r : Bool) (hrows : 1 ≤ b.rows)
    (h : b.get_valid_moves ≠ []) : sortMoves (move_scores b p o mover) r ≠ [] := by
  apply stableSort_ne_nil
  intro hm
  rw [move_scores_keys b p o mover hrows] at hm
  exact h hm

theorem Score.lt_negInf_or_eq (s : Score) : Score.lt .negInf s = true ∨ s = .negInf := by
  cases s <;> simp [Score.lt]

theorem rootLoop_bm_subset (p o : Nat) (useCache : Bool) (d : Nat) (b : Board) :
    ∀ (cols : List Nat) (best : Score) (bm : List Nat) (alpha : Score) (t : TT) (x : Nat),
      x ∈ (rootLoop p o useCache d b cols best bm alpha t).2.1 → x ∈ bm ∨ x ∈ cols := by
  intro cols
  induction cols with
  | nil => intro best bm alpha t x hx; exact Or.inl hx
  | cons col rest ih =>
    intro best bm alpha t x hx
    unfold rootLoop at hx
    rcases hdrop : b.drop_piece col p with ⟨ok, rr, nb⟩
    rw [hdrop] at hx
    cases ok with
    | false =>
      simp only at hx
      rcases ih _ _ _ _ x hx with h | h
      · exact Or.inl h
      · exact Or.inr (List.mem_cons_of_mem col h)
    | true =>
      simp only at hx
      rcases hmm : minimax p o useCache d nb alpha Score.posInf false t with ⟨score, t'⟩
      rw [hmm] at hx
      simp only at hx
      by_cases h1 : Score.lt best score = true
      · rw [if_pos h1] at hx
        rcases ih _ _ _ _ x hx with h | h
        · simp only [List.mem_singleton] at h
          exact Or.inr (h ▸ List.mem_cons_self col rest)
        · exact Or.inr (List.mem_cons_of_mem col h)
      · rw [if_neg h1] at hx
        by_cases h2 : score = best
        · rw [if_pos h2] at hx
          rcases ih _ _ _ _ x hx with h | h
          · rcases List.mem_append.mp h with h3 | h3
            · exact Or.inl h3
            · simp only [List.mem_singleton] at h3
              exact Or.inr (h3 ▸ List.mem_cons_self col rest)
          · exact Or.inr (List.mem_cons_of_mem col h)
        · rw [if_neg h2] at hx
          rcases ih _ _ _ _ x hx with h | h
          · exact Or.inl h
          · exact Or.inr (List.mem_cons_of_mem col h)

theorem rootLoop_bm_ne_nil (p o : Nat) (useCache : Bool) (d : Nat) (b : Board) :
    ∀ (cols : List Nat) (best : Score) (bm : List Nat) (alpha : Score) (t : TT),
      bm ≠ [] → (rootLoop p o useCache d b cols best bm alpha t).2.1 ≠ [] := by
  intro cols
  induction cols with
  | nil => intro best bm alpha t h; exact h
  | cons col rest ih =>
    intro best bm alpha t h
    unfold rootLoop
    rcases hdrop : b.drop_piece col p with ⟨ok, rr, nb⟩
    cases ok with
    | false => exact ih _ _ _ _ h
    | true =>
      simp only
      rcases hmm : minimax p o useCache d nb alpha Score.posInf false t with ⟨score, t'⟩
      simp only
      by_cases h1 : Score.lt best score = true
      · rw [if_pos h1]; exact ih _ _ _ _ (by simp)
      · rw [if_neg h1]
        by_cases h2 : score = best
        · rw [if_pos h2]; exact ih _ _ _ _ (by simp)
        · rw [if_neg h2]; exact ih _ _ _ _ h

theorem rootLoop_bm_start (p o : Nat) (useCache : Bool) (d : Nat) (b : Board)
    (col : Nat) (rest : List Nat) (alpha : Score) (t : TT)
    (hok : (b.drop_piece col p).1 = true) :
    (rootLoop p o useCache d b (col :: rest) .negInf [] alpha t).2.1 ≠ [] := by
  unfold rootLoop
  rcases hdrop : b.drop_piece col p with ⟨ok, rr, nb⟩
  rw [hdrop] at hok
  simp only at hok
  subst hok
  simp only
  rcases hmm : minimax p o useCache d nb alpha Score.posInf false t with ⟨score, t'⟩
  simp only
  rcases Score.lt_negInf_or_eq score with h1 | h1
  · rw [if_pos h1]
    exact rootLoop_bm_ne_nil p o useCache d b rest _ _ _ _ (by simp)
  · have hlt : Score.lt Score.negInf score = false := by
      subst h1; rfl
    rw [hlt]
    simp only [Bool.false_eq_true, if_false, h1, if_pos rfl]
    exact rootLoop_bm_ne_nil p o useCache d b rest _ _ _ _ (by simp)

end Connect4

namespace Connect4

theorem mem_tieBroken (cols : Nat) (bm : List Nat) (y : Nat) :
    y ∈ tieBroken cols bm ↔ y ∈ bm := by
  unfold tieBroken
  by_cases h : 1 < bm.length
  · rw [if_pos h, mem_stableSort]
  · rw [if_neg h]

theorem tieBroken_ne_nil (cols : Nat) (bm : List Nat) (h : bm ≠ []) :
    tieBroken cols bm ≠ [] := by
  unfold tieBroken
  by_cases h1 : 1 < bm.length
  · rw [if_pos h1]; exact stableSort_ne_nil _ _ h
  · rw [if_neg h1]; exact h

theorem is_valid_of_mem (b : Board) (col : Nat) (h : col ∈ b.get_valid_moves) :
    b.is_valid_move col = true := (List.mem_filter.mp h).2

theorem is_full_iff_no_valid (b : Board) : b.is_full = true ↔ b.get_valid_moves = [] := by
  unfold Board.is_full
  rw [List.all_eq_true, List.eq_nil_iff_forall_not_mem]
  constructor
  · intro h col hm
    obtain ⟨hc, htop⟩ := (mem_get_valid_moves b col).mp hm
    have := h col (List.mem_range.mpr hc)
    simp [htop] at this
  · intro h col hm
    by_cases htop : b.getCell 0 col = EMPTY
    · exact absurd ((mem_get_valid_moves b col).mpr ⟨List.mem_range.mp hm, htop⟩) (h col)
    · simpa using htop

theorem root_result_eq (p o : Nat) (useCache : Bool) (d : Nat) (b : Board) :
    root_result p o useCache d b =
      ((rootLoop p o useCache (d - 1) b (sortMoves (move_scores b p o p) true)
        .negInf [] .negInf []).1,
       (rootLoop p o useCache (d - 1) b (sortMoves (move_scores b p o p) true)
        .negInf [] .negInf []).2.1) := by
  unfold root_result
  rcases h : rootLoop p o useCache (d - 1) b (sortMoves (move_scores b p o p) true)
      .negInf [] .negInf [] with ⟨a, bm, t⟩
  simp [h]

/-- C10: whenever the board has at least one legal move, the column
returned by `get_move` satisfies `is_valid_move`; and on the search path
(no immediate win or block) the internal `best_moves` list is non-empty,
so the final `best_moves[0]` access cannot fail. -/
theorem get_move_safe (b : Board) (p o : Nat) (useCache : Bool) (d : Nat)
    (hrows : 1 ≤ b.rows) (hne : b.get_valid_moves ≠ []) :
    (immediate_win b p = none → immediate_win b o = none →
      (root_result p o useCache d b).2 ≠ [])
    ∧ ∃ c : Nat, get_move p o useCache d b = some (c : Int)
        ∧ b.is_valid_move c = true := by
  have hnotempty : ¬b.get_valid_moves.isEmpty := by
    simpa [List.isEmpty_iff] using hne
  have hsorted_ne : sortMoves (move_scores b p o p) true ≠ [] :=
    sortMoves_ne_nil b p o p true hrows hne
  have hbm : (root_result p o useCache d b).2 ≠ [] := by
    rw [root_result_eq]
    simp only
    rcases hs : sortMoves (move_scores b p o p) true with _ | ⟨col, rest⟩
    · exact absurd hs hsorted_ne
    · have hcolmem : col ∈ b.get_valid_moves := by
        rw [← mem_sortMoves b p o p true hrows col, hs]
        exact List.mem_cons_self col rest
      have hok := drop_succeeds_of_valid b col p hrows hcolmem
      exact rootLoop_bm_start p o useCache (d - 1) b col rest .negInf [] hok
  refine ⟨fun _ _ => hbm, ?_⟩
  unfold get_move
  rw [if_neg hnotempty]
  rcases hwin : immediate_win b p with _ | c
  · rcases hblock : immediate_win b o with _ | c
    · have hbm2 : (root_result p o useCache d b).2 =
          (rootLoop p o useCache (d - 1) b (sortMoves (move_scores b p o p) true)
            .negInf [] .negInf []).2.1 := by
        rw [root_result_eq]
      rcases htb : tieBroken b.cols (root_result p o useCache d b).2
          with _ | ⟨c, rest2⟩
      · exact absurd htb (tieBroken_ne_nil b.cols _ hbm)
      · have hcmem : c ∈ (root_result p o useCache d b).2 := by
          rw [← mem_tieBroken b.cols _ c, htb]
          exact List.mem_cons_self c rest2
        have hcsorted : c ∈ sortMoves (move_scores b p o p) true := by
          rw [hbm2] at hcmem
          rcases rootLoop_bm_subset p o useCache (d - 1) b
            (sortMoves (move_scores b p o p) true) .negInf [] .negInf [] c hcmem with h | h
          · simp at h
          · exact h
        have hcvalid : c ∈ b.get_valid_moves :=
          (mem_sortMoves b p o p true hrows c).mp hcsorted
        refine ⟨c, ?_, is_valid_of_mem b c hcvalid⟩
        rcases hroot : root_result p o useCache d b with ⟨best, bm⟩
        rw [hroot] at htb
        simp [hroot, htb]
    · have hcmem := List.mem_of_find?_eq_some (immediate_win_eq_find b o ▸ hblock)
      exact ⟨c, by simp [hwin, hblock], is_valid_of_mem b c hcmem⟩
  · have hcmem := List.mem_of_find?_eq_some (immediate_win_eq_find b p ▸ hwin)
    exact ⟨c, by simp [hwin], is_valid_of_mem b c hcmem⟩

/-- Witness for C10 on a concrete board with legal moves. -/
theorem get_move_safe_witness :
    let b : Board := ⟨6, 7, [[0,0,0,0,0,0,0],[0,0,0,0,0,0,0],[0,0,0,0,0,0,0],
      [0,0,0,0,0,0,0],[0,0,0,0,0,0,0],[1,1,1,0,0,0,2]]⟩
    (immediate_win b 1 = none → immediate_win b 2 = none →
      (root_result 1 2 true 6 b).2 ≠ [])
    ∧ ∃ c : Nat, get_move 1 2 true 6 b = some (c : Int)
        ∧ b.is_valid_move c = true :=
  get_move_safe _ 1 2 true 6 (by decide) (by decide)

end Connect4

namespace Connect4

/-- C7: `get_move` returns the sentinel −1 exactly when the board has no
legal move (`is_full`), and otherwise returns a column index in
`[0, cols)` (as a natural number cast to `Int`), with no error. -/
theorem get_move_sentinel (b : Board) (p o : Nat) (useCache : Bool) (d : Nat)
    (hrows : 1 ≤ b.rows) :
    (get_move p o useCache d b = some (-1) ↔ b.is_full = true)
    ∧ (b.is_full = false →
        ∃ c : Nat, get_move p o useCache d b = some (c : Int) ∧ c < b.cols) := by
  have hfull := is_full_iff_no_valid b
  by_cases hf : b.is_full = true
  · have hvm : b.get_valid_moves = [] := hfull.mp hf
    have hempty : b.get_valid_moves.isEmpty := by simp [hvm]
    have : get_move p o useCache d b = some (-1) := by
      unfold get_move
      rw [if_pos hempty]
    exact ⟨⟨fun _ => hf, fun _ => this⟩, fun h => absurd hf (by simp [h])⟩
  · have hf' : b.is_full = false := by simpa using hf
    have hvm : b.get_valid_moves ≠ [] := fun h => hf (hfull.mpr h)
    obtain ⟨_, c, hc, hvalid⟩ := get_move_safe b p o useCache d hrows hvm
    have hcols : c < b.cols := by
      unfold Board.is_valid_move at hvalid
      simp at hvalid
      exact hvalid.1
    refine ⟨⟨fun h => ?_, fun h => absurd h (by simp [hf'])⟩, fun _ => ⟨c, hc, hcols⟩⟩
    rw [hc] at h
    have : (c : Int) = -1 := by injection h
    omega

/-- Witness for C7 on a full board and a board with moves. -/
theorem get_move_sentinel_witness :
    let full : Board := ⟨6, 7, [[1,2,1,2,1,2,1],[1,2,1,2,1,2,1],[2,1,2,1,2,1,2],
      [2,1,2,1,2,1,2],[1,2,1,2,1,2,1],[1,2,1,2,1,2,2]]⟩
    ((get_move 2 1 true 6 full = some (-1) ↔ full.is_full = true)
      ∧ (full.is_full = false →
        ∃ c : Nat, get_move 2 1 true 6 full = some (c : Int) ∧ c < full.cols)) :=
  get_move_sentinel _ 2 1 true 6 (by decide)

end Connect4

namespace Connect4

/-! ## Tie-break analysis (C3) -/

theorem stableSort_cons (before : Nat → Nat → Bool) (a : Nat) (t : List Nat) :
    stableSort before (a :: t) = insertBefore before a (stableSort before t) := rfl

/-- Head of the stable ascending sort: the earliest element of `l`
attaining the minimal key. -/
theorem stableSort_head (key : Nat → Nat) :
    ∀ l : List Nat, l ≠ [] →
      ∃ c l₁ l₂, (stableSort (fun x y => decide (key x ≤ key y)) l).head? = some c
        ∧ l = l₁ ++ c :: l₂
        ∧ (∀ m ∈ l₁, key c < key m)
        ∧ (∀ m ∈ l, key c ≤ key m) := by
  intro l
  induction l with
  | nil => intro h; exact absurd rfl h
  | cons a t ih =>
    intro _
    by_cases ht : t = []
    · subst ht
      exact ⟨a, [], [], by simp [stableSort, insertBefore], rfl, by simp, by simp⟩
    · obtain ⟨c, l₁, l₂, hhead, hdec, hless, hmin⟩ := ih ht
      rcases hs : stableSort (fun x y => decide (key x ≤ key y)) t with _ | ⟨c0, s2⟩
      · exact absurd hs (stableSort_ne_nil _ t ht)
      · have hc0 : c0 = c := by
          rw [hs] at hhead
          simpa using hhead
        rw [hc0] at hs
        by_cases hle : key a ≤ key c
        · refine ⟨a, [], t, ?_, rfl, by simp, ?_⟩
          · rw [stableSort_cons, hs]
            unfold insertBefore
            rw [if_pos (by simpa using hle)]
            rfl
          · intro m hm
            rcases List.mem_cons.mp hm with rfl | hmt
            · exact Nat.le_refl _
            · exact Nat.le_trans hle (hmin m hmt)
        · refine ⟨c, a :: l₁, l₂, ?_, ?_, ?_, ?_⟩
          · rw [stableSort_cons, hs]
            unfold insertBefore
            rw [if_neg (by simpa using hle)]
            rfl
          · rw [hdec]
            rfl
          · intro m hm
            rcases List.mem_cons.mp hm with rfl | hml
            · exact Nat.lt_of_not_le hle
            · exact hless m hml
          · intro m hm
            rcases List.mem_cons.mp hm with rfl | hmt
            · exact Nat.le_of_lt (Nat.lt_of_not_le hle)
            · exact hmin m hmt

/-- C3 (amended): when `get_move` reaches the root search with several
best moves, it returns a best move whose distance to the center column is
minimal; among equally central tied moves it returns the one that comes
first in `best_moves` order (the root move-ordering: descending one-ply
heuristic score, ties by ascending column) — every tied move listed
before the returned one is strictly farther from the center. -/
theorem get_move_tie_break (b : Board) (p o : Nat) (useCache : Bool) (d : Nat)
    (hne : b.get_valid_moves ≠ [])
    (hwin : immediate_win b p = none) (hblock : immediate_win b o = none)
    (hmulti : 1 < (root_result p o useCache d b).2.length) :
    ∃ (c : Nat) (bm₁ bm₂ : List Nat), get_move p o useCache d b = some (c : Int)
      ∧ (root_result p o useCache d b).2 = bm₁ ++ c :: bm₂
      ∧ (∀ m ∈ (root_result p o useCache d b).2,
          centerDist b.cols c ≤ centerDist b.cols m)
      ∧ (∀ m ∈ bm₁, centerDist b.cols c < centerDist b.cols m) := by
  have hnotempty : ¬b.get_valid_moves.isEmpty := by
    simpa [List.isEmpty_iff] using hne
  have hbmne : (root_result p o useCache d b).2 ≠ [] := by
    intro h
    rw [h] at hmulti
    simp at hmulti
  obtain ⟨c, l₁, l₂, hhead, hdec, hless, hmin⟩ :=
    stableSort_head (centerDist b.cols) (root_result p o useCache d b).2 hbmne
  refine ⟨c, l₁, l₂, ?_, hdec, hmin, hless⟩
  unfold get_move
  rw [if_neg hnotempty, hwin, hblock]
  rcases hroot : root_result p o useCache d b with ⟨best, bm⟩
  rw [hroot] at hmulti hhead
  simp only at hmulti hhead
  have htb : tieBroken b.cols bm =
      stableSort (fun x y => decide (centerDist b.cols x ≤ centerDist b.cols y)) bm := by
    unfold tieBroken
    rw [if_pos hmulti]
  simp only [hroot]
  rw [htb, hhead]
  rfl

/-- The board of the C3 counterexample. -/
def tieBoard : Board :=
  ⟨6, 7, [[2,2,0,2,0,2,1],[1,2,0,1,0,1,1],[1,1,0,2,0,2,1],[2,1,0,1,0,1,2],
          [2,1,0,1,0,1,1],[1,2,0,1,0,1,2]]⟩

end Connect4

namespace Connect4

set_option maxHeartbeats 4000000 in
/-- C3 counterexample: on `tieBoard` (bot 2, depth 2) the root search ends
with `best_moves = [4, 2]`; columns 4 and 2 are equally distant from the
center column 3, yet `get_move` returns 4, not the lower-index 2 — the
equal-distance tie is resolved by the heuristic move ordering, not by the
lower column index. -/
theorem tie_break_cex :
    (root_result 2 1 true 2 tieBoard).2 = [4, 2]
    ∧ centerDist tieBoard.cols 4 = centerDist tieBoard.cols 2
    ∧ get_move 2 1 true 2 tieBoard = some 4 := by
  refine ⟨by decide, by decide, by decide⟩

/-- Witness for the amended C3 on the same concrete board. -/
theorem get_move_tie_break_witness :
    ∃ (c : Nat) (bm₁ bm₂ : List Nat), get_move 2 1 true 2 tieBoard = some (c : Int)
      ∧ (root_result 2 1 true 2 tieBoard).2 = bm₁ ++ c :: bm₂
      ∧ (∀ m ∈ (root_result 2 1 true 2 tieBoard).2,
          centerDist tieBoard.cols c ≤ centerDist tieBoard.cols m)
      ∧ (∀ m ∈ bm₁, centerDist tieBoard.cols c < centerDist tieBoard.cols m) :=
  get_move_tie_break tieBoard 2 1 true 2 (by decide) (by decide) (by decide)
    (by decide)

end Connect4

namespace Connect4

/-! ## Spec-side evaluator (C5) and mirror transform (C8) -/

/-- The glossary positional-weight table of the spec. -/
def specWeights : List (List Int) :=
  [[3, 4, 5, 7, 5, 4, 3],
   [4, 6, 8, 10, 8, 6, 4],
   [5, 7, 9, 11, 9, 7, 5],
   [5, 7, 9, 11, 9, 7, 5],
   [6, 8, 10, 12, 10, 8, 6],
   [7, 9, 12, 15, 12, 9, 7]]

/-- Glossary weight of cell `(r, c)`. -/
def specWeightAt (r c : Nat) : Int :=
  (specWeights.getD r []).getD c 0

/-- The spec's window classification (4 perspective pieces → +100;
3 + 1 empty → +10; 2 + 2 empty → +3; 3 opponent + 1 empty → −50;
2 opponent + 2 empty → −5; anything else → 0). -/
def specWindowScore (p o : Nat) (window : List Nat) : Int :=
  let bot_pieces := window.count p
  let opponent_pieces := window.count o
  let empty_pieces := window.count EMPTY
  if bot_pieces = 4 then 100
  else if bot_pieces = 3 ∧ empty_pieces = 1 then 10
  else if bot_pieces = 2 ∧ empty_pieces = 2 then 3
  else if opponent_pieces = 3 ∧ empty_pieces = 1 then (-50)
  else if opponent_pieces = 2 ∧ empty_pieces = 2 then (-5)
  else 0

/-- The 69-window catalog of §4.2 of the spec, as coordinate lists. -/
def specCatalog : List (List (Nat × Nat)) :=
  ((List.range 6).flatMap fun r => (List.range 4).map fun c =>
    (List.range 4).map fun i => (r, c + i))
  ++ ((List.range 3).flatMap fun r => (List.range 7).map fun c =>
    (List.range 4).map fun i => (r + i, c))
  ++ ((List.range 3).flatMap fun r => (List.range 4).map fun c =>
    (List.range 4).map fun i => (r + i, c + i))
  ++ ((List.range' 3 3).flatMap fun r => (List.range 4).map fun c =>
    (List.range 4).map fun i => (r - i, c + i))

/-- The spec's evaluation score: per-cell signed glossary weights, plus
the classification of every catalog window, plus +3 per perspective piece
in the middle column `cols / 2`. -/
def specEval (b : Board) (p o : Nat) : Int :=
  (((List.range 6).map fun r => ((List.range 7).map fun c =>
    if b.getCell r c = p then specWeightAt r c
    else if b.getCell r c = o then -(specWeightAt r c) else 0).sum).sum)
  + (specCatalog.map fun w =>
      specWindowScore p o (w.map fun rc => b.getCell rc.1 rc.2)).sum
  + 3 * ((((List.range 6).map fun r => b.getCell r (b.cols / 2)).count p : Int))

/-- Replace every `p`-piece by an `o`-piece and vice versa. -/
def swapCell (p o x : Nat) : Nat :=
  if x = p then o else if x = o then p else x

/-- The mirror transform of C8: columns reversed and the two players'
pieces swapped (built cellwise over the board's dimensions). -/
def mirrorSwap (p o : Nat) (b : Board) : Board :=
  ⟨b.rows, b.cols, (List.range b.rows).map fun r =>
    (List.range b.cols).map fun c => swapCell p o (b.getCell r (b.cols - 1 - c))⟩

theorem range4_eq : List.range 4 = [0, 1, 2, 3] := rfl

theorem range6_eq : List.range 6 = [0, 1, 2, 3, 4, 5] := rfl

theorem range7_eq : List.range 7 = [0, 1, 2, 3, 4, 5, 6] := rfl

theorem range3_eq : List.range 3 = [0, 1, 2] := rfl

theorem range33_eq : List.range' 3 3 = [3, 4, 5] := rfl

theorem specWeightAt_eq : specWeightAt = weightAt := rfl

theorem specWindowScore_eq : specWindowScore = evaluate_window := rfl

theorem swapCell_eq_o (p o : Nat) (hpo : p ≠ o) (x : Nat) :
    (swapCell p o x = o) = (x = p) := by
  apply propext
  unfold swapCell
  constructor
  · intro h
    by_cases h1 : x = p
    · exact h1
    · by_cases h2 : x = o
      · rw [if_neg h1, if_pos h2] at h
        exact absurd h hpo
      · rw [if_neg h1, if_neg h2] at h
        exact absurd h h2
  · intro h
    rw [if_pos h]

theorem swapCell_eq_p (p o : Nat) (hpo : p ≠ o) (x : Nat) :
    (swapCell p o x = p) = (x = o) := by
  apply propext
  unfold swapCell
  constructor
  · intro h
    by_cases h1 : x = p
    · rw [if_pos h1] at h
      exact absurd h (fun hh => hpo hh.symm)
    · by_cases h2 : x = o
      · exact h2
      · rw [if_neg h1, if_neg h2] at h
        exact absurd h h1
  · intro h
    have h1 : ¬(x = p) := fun hxp => hpo (hxp ▸ h)
    rw [if_neg h1, if_pos h]

theorem swapCell_zero (p o : Nat) (hp : p ≠ 0) (ho : o ≠ 0) :
    swapCell p o 0 = 0 := by
  unfold swapCell
  rw [if_neg (fun h => hp h.symm), if_neg (fun h => ho h.symm)]

theorem swapCell_ne_zero (p o : Nat) (hp : p ≠ 0) (ho : o ≠ 0) (a : Nat)
    (h : a ≠ 0) : swapCell p o a ≠ 0 := by
  unfold swapCell
  by_cases h1 : a = p
  · rw [if_pos h1]; exact ho
  · by_cases h2 : a = o
    · rw [if_neg h1, if_pos h2]; exact hp
    · rw [if_neg h1, if_neg h2]; exact h

theorem count_swap_o (p o : Nat) (hpo : p ≠ o) :
    ∀ l : List Nat, (l.map (swapCell p o)).count o = l.count p := by
  intro l
  induction l with
  | nil => rfl
  | cons a t ih =>
    rw [List.map_cons, List.count_cons, List.count_cons, ih]
    have hb : (swapCell p o a == o) = (a == p) := by
      by_cases h : a = p
      · subst h
        have hh : swapCell a o a = o := by unfold swapCell; rw [if_pos rfl]
        simp [hh]
      · have h2 : swapCell p o a ≠ o := fun hh => h ((swapCell_eq_o p o hpo a) ▸ hh)
        simp [h, h2]
    rw [hb]

theorem count_swap_p (p o : Nat) (hpo : p ≠ o) :
    ∀ l : List Nat, (l.map (swapCell p o)).count p = l.count o := by
  intro l
  induction l with
  | nil => rfl
  | cons a t ih =>
    rw [List.map_cons, List.count_cons, List.count_cons, ih]
    have hb : (swapCell p o a == p) = (a == o) := by
      by_cases h : a = o
      · subst h
        have hh : swapCell p a a = p := by
          have h1 : ¬(a = p) := fun hxp => hpo (hxp ▸ rfl)
          unfold swapCell
          rw [if_neg h1, if_pos rfl]
        simp [hh]
      · have h2 : swapCell p o a ≠ p := fun hh => h ((swapCell_eq_p p o hpo a) ▸ hh)
        simp [h, h2]
    rw [hb]

theorem count_swap_zero (p o : Nat) (hp : p ≠ 0) (ho : o ≠ 0) :
    ∀ l : List Nat, (l.map (swapCell p o)).count 0 = l.count 0 := by
  intro l
  induction l with
  | nil => rfl
  | cons a t ih =>
    rw [List.map_cons, List.count_cons, List.count_cons, ih]
    have hb : (swapCell p o a == 0) = (a == 0) := by
      by_cases h : a = 0
      · subst h
        simp [swapCell_zero p o hp ho]
      · simp [h, swapCell_ne_zero p o hp ho a h]
    rw [hb]

theorem evaluate_window_eq_of_counts (p1 o1 p2 o2 : Nat) (w1 w2 : List Nat)
    (h1 : w1.count p1 = w2.count p2) (h2 : w1.count o1 = w2.count o2)
    (h3 : w1.count EMPTY = w2.count EMPTY) :
    evaluate_window p1 o1 w1 = evaluate_window p2 o2 w2 := by
  unfold evaluate_window
  rw [h1, h2, h3]

theorem evaluate_window_swap (p o : Nat) (hpo : p ≠ o) (hp : p ≠ 0) (ho : o ≠ 0)
    (a b c d : Nat) :
    evaluate_window o p
        [swapCell p o a, swapCell p o b, swapCell p o c, swapCell p o d]
      = evaluate_window p o [a, b, c, d] := by
  rw [show [swapCell p o a, swapCell p o b, swapCell p o c, swapCell p o d] =
    List.map (swapCell p o) [a, b, c, d] from rfl]
  exact evaluate_window_eq_of_counts o p p o _ _
    (count_swap_o p o hpo _) (count_swap_p p o hpo _)
    (count_swap_zero p o hp ho _)

theorem evaluate_window_swap_rev (p o : Nat) (hpo : p ≠ o) (hp : p ≠ 0) (ho : o ≠ 0)
    (a b c d : Nat) :
    evaluate_window o p
        [swapCell p o a, swapCell p o b, swapCell p o c, swapCell p o d]
      = evaluate_window p o [d, c, b, a] := by
  rw [evaluate_window_swap p o hpo hp ho a b c d]
  rw [show [d, c, b, a] = List.reverse [a, b, c, d] from rfl]
  exact evaluate_window_eq_of_counts p o p o _ _
    (List.count_reverse _ _).symm (List.count_reverse _ _).symm
    (List.count_reverse _ _).symm

theorem positional_cell_swap (p o : Nat) (hpo : p ≠ o) (x : Nat) (w : Int) :
    positional_cell o p (swapCell p o x) w = positional_cell p o x w := by
  unfold positional_cell
  simp only [swapCell_eq_o p o hpo, swapCell_eq_p p o hpo]

end Connect4

namespace Connect4

theorem getCell_mirror (b : Board) (p o : Nat) (hwf : b.WF6x7) (hp : p ≠ 0) (ho : o ≠ 0)
    (r c : Nat) (hc : c < 7) :
    (mirrorSwap p o b).getCell r c = swapCell p o (b.getCell r (6 - c)) := by
  obtain ⟨h6, h7, hlen, hrowlen⟩ := hwf
  show ((mirrorSwap p o b).grid.getD r []).getD c EMPTY = _
  unfold mirrorSwap
  simp only
  rw [h6, h7]
  by_cases hr : r < 6
  · have e1 : ((List.range 6).map fun r => (List.range 7).map fun c =>
        swapCell p o (b.getCell r (7 - 1 - c))).getD r [] =
        (List.range 7).map fun c => swapCell p o (b.getCell r (7 - 1 - c)) := by
      rw [List.getD_eq_getElem _ _ (by simpa using hr), List.getElem_map,
        List.getElem_range]
    rw [e1]
    have e2 : ((List.range 7).map fun c =>
        swapCell p o (b.getCell r (7 - 1 - c))).getD c EMPTY =
        swapCell p o (b.getCell r (7 - 1 - c)) := by
      rw [List.getD_eq_getElem _ _ (by simpa using hc), List.getElem_map,
        List.getElem_range]
    rw [e2]
  · have hge : (6 : Nat) ≤ r := Nat.le_of_not_lt hr
    have e1 : ((List.range 6).map fun r => (List.range 7).map fun c =>
        swapCell p o (b.getCell r (7 - 1 - c))).getD r [] = ([] : List Nat) :=
      List.getD_eq_default _ _ (by simpa using hge)
    rw [e1]
    have e2 : b.grid.getD r [] = ([] : List Nat) :=
      List.getD_eq_default _ _ (by rw [hlen, h6]; exact hge)
    show (0 : Nat) = swapCell p o (b.getCell r (6 - c))
    unfold Board.getCell
    rw [e2]
    rw [show (([] : List Nat).getD (6 - c) EMPTY) = 0 from rfl,
      swapCell_zero p o hp ho]

/-- C5: for every well-formed 6×7 board, `_evaluate_position` equals the
spec formula — signed glossary positional weights per cell, plus the
window classification summed over the 69-window catalog, plus +3 per
bot piece in the middle column — and it is a pure function of the grid
(and the two players). -/
theorem evaluate_position_spec (b : Board) (p o : Nat) (hwf : b.WF6x7) :
    evaluate_position b p o = specEval b p o
    ∧ ∀ b' : Board, b'.WF6x7 → b'.grid = b.grid →
        evaluate_position b' p o = evaluate_position b p o := by
  obtain ⟨h6, h7, hwff⟩ := hwf
  constructor
  · simp only [evaluate_position, specEval, positional_score, window_fold,
      center_bonus, specCatalog, horizontal_windows, vertical_windows,
      diagonal_down_windows, diagonal_up_windows, specWeightAt_eq,
      specWindowScore_eq]
    rw [h6, h7]
    simp [range3_eq, range4_eq, range6_eq, range7_eq, range33_eq,
      get_window_values, positional_cell, List.flatMap_cons, List.flatMap_nil,
      List.cons_append, List.nil_append, List.append_nil]
    ring
  · intro b' hwf' hg
    obtain ⟨h6', h7', _⟩ := hwf'
    have hbb : b' = b := by
      cases b
      cases b'
      simp only at h6 h7 h6' h7' hg
      subst hg
      rw [h6, h7, h6', h7']
    rw [hbb]

/-- Witness for C5 at a concrete board. -/
theorem evaluate_position_spec_witness :
    evaluate_position tieBoard 2 1 = specEval tieBoard 2 1
    ∧ ∀ b' : Board, b'.WF6x7 → b'.grid = tieBoard.grid →
        evaluate_position b' 2 1 = evaluate_position tieBoard 2 1 :=
  evaluate_position_spec tieBoard 2 1 (by refine ⟨rfl, rfl, rfl, ?_⟩; decide)

end Connect4

namespace Connect4

theorem mirrorSwap_rows (p o : Nat) (b : Board) : (mirrorSwap p o b).rows = b.rows := rfl

theorem mirrorSwap_cols (p o : Nat) (b : Board) : (mirrorSwap p o b).cols = b.cols := rfl

theorem mirror_cell_0 (b : Board) (p o : Nat) (hwf : b.WF6x7) (hp : p ≠ 0) (ho : o ≠ 0) :
    ∀ r, (mirrorSwap p o b).getCell r 0 = swapCell p o (b.getCell r 6) :=
  fun r => getCell_mirror b p o hwf hp ho r 0 (by omega)

theorem mirror_cell_1 (b : Board) (p o : Nat) (hwf : b.WF6x7) (hp : p ≠ 0) (ho : o ≠ 0) :
    ∀ r, (mirrorSwap p o b).getCell r 1 = swapCell p o (b.getCell r 5) :=
  fun r => getCell_mirror b p o hwf hp ho r 1 (by omega)

theorem mirror_cell_2 (b : Board) (p o : Nat) (hwf : b.WF6x7) (hp : p ≠ 0) (ho : o ≠ 0) :
    ∀ r, (mirrorSwap p o b).getCell r 2 = swapCell p o (b.getCell r 4) :=
  fun r => getCell_mirror b p o hwf hp ho r 2 (by omega)

theorem mirror_cell_3 (b : Board) (p o : Nat) (hwf : b.WF6x7) (hp : p ≠ 0) (ho : o ≠ 0) :
    ∀ r, (mirrorSwap p o b).getCell r 3 = swapCell p o (b.getCell r 3) :=
  fun r => getCell_mirror b p o hwf hp ho r 3 (by omega)

theorem mirror_cell_4 (b : Board) (p o : Nat) (hwf : b.WF6x7) (hp : p ≠ 0) (ho : o ≠ 0) :
    ∀ r, (mirrorSwap p o b).getCell r 4 = swapCell p o (b.getCell r 2) :=
  fun r => getCell_mirror b p o hwf hp ho r 4 (by omega)

theorem mirror_cell_5 (b : Board) (p o : Nat) (hwf : b.WF6x7) (hp : p ≠ 0) (ho : o ≠ 0) :
    ∀ r, (mirrorSwap p o b).getCell r 5 = swapCell p o (b.getCell r 1) :=
  fun r => getCell_mirror b p o hwf hp ho r 5 (by omega)

theorem mirror_cell_6 (b : Board) (p o : Nat) (hwf : b.WF6x7) (hp : p ≠ 0) (ho : o ≠ 0) :
    ∀ r, (mirrorSwap p o b).getCell r 6 = swapCell p o (b.getCell r 0) :=
  fun r => getCell_mirror b p o hwf hp ho r 6 (by omega)

theorem positional_mirror (b : Board) (p o : Nat) (hwf : b.WF6x7) (hpo : p ≠ o)
    (hp : p ≠ 0) (ho : o ≠ 0) :
    positional_score (mirrorSwap p o b) o p = positional_score b p o := by
  simp [positional_score, mirrorSwap_rows, mirrorSwap_cols, hwf.1, hwf.2.1, range6_eq, range7_eq]
  simp only [mirror_cell_0 b p o hwf hp ho, mirror_cell_1 b p o hwf hp ho,
    mirror_cell_2 b p o hwf hp ho, mirror_cell_3 b p o hwf hp ho,
    mirror_cell_4 b p o hwf hp ho, mirror_cell_5 b p o hwf hp ho,
    mirror_cell_6 b p o hwf hp ho]
  simp only [positional_cell_swap p o hpo]
  simp only [
      show weightAt 0 0 = 3 from rfl, show weightAt 0 1 = 4 from rfl,
      show weightAt 0 2 = 5 from rfl, show weightAt 0 3 = 7 from rfl,
      show weightAt 0 4 = 5 from rfl, show weightAt 0 5 = 4 from rfl,
      show weightAt 0 6 = 3 from rfl, show weightAt 1 0 = 4 from rfl,
      show weightAt 1 1 = 6 from rfl, show weightAt 1 2 = 8 from rfl,
      show weightAt 1 3 = 10 from rfl, show weightAt 1 4 = 8 from rfl,
      show weightAt 1 5 = 6 from rfl, show weightAt 1 6 = 4 from rfl,
      show weightAt 2 0 = 5 from rfl, show weightAt 2 1 = 7 from rfl,
      show weightAt 2 2 = 9 from rfl, show weightAt 2 3 = 11 from rfl,
      show weightAt 2 4 = 9 from rfl, show weightAt 2 5 = 7 from rfl,
      show weightAt 2 6 = 5 from rfl, show weightAt 3 0 = 5 from rfl,
      show weightAt 3 1 = 7 from rfl, show weightAt 3 2 = 9 from rfl,
      show weightAt 3 3 = 11 from rfl, show weightAt 3 4 = 9 from rfl,
      show weightAt 3 5 = 7 from rfl, show weightAt 3 6 = 5 from rfl,
      show weightAt 4 0 = 6 from rfl, show weightAt 4 1 = 8 from rfl,
      show weightAt 4 2 = 10 from rfl, show weightAt 4 3 = 12 from rfl,
      show weightAt 4 4 = 10 from rfl, show weightAt 4 5 = 8 from rfl,
      show weightAt 4 6 = 6 from rfl, show weightAt 5 0 = 7 from rfl,
      show weightAt 5 1 = 9 from rfl, show weightAt 5 2 = 12 from rfl,
      show weightAt 5 3 = 15 from rfl, show weightAt 5 4 = 12 from rfl,
      show weightAt 5 5 = 9 from rfl, show weightAt 5 6 = 7 from rfl]
  ring

theorem window_fold_mirror_h (b : Board) (p o : Nat) (hwf : b.WF6x7) (hpo : p ≠ o)
    (hp : p ≠ 0) (ho : o ≠ 0) :
    window_fold (mirrorSwap p o b) o p horizontal_windows .horizontal
      = window_fold b p o horizontal_windows .horizontal := by
  simp [window_fold, horizontal_windows, range6_eq, range4_eq, get_window_values]
  simp only [mirror_cell_0 b p o hwf hp ho, mirror_cell_1 b p o hwf hp ho,
    mirror_cell_2 b p o hwf hp ho, mirror_cell_3 b p o hwf hp ho,
    mirror_cell_4 b p o hwf hp ho, mirror_cell_5 b p o hwf hp ho,
    mirror_cell_6 b p o hwf hp ho]
  simp only [evaluate_window_swap_rev p o hpo hp ho]
  ring

theorem window_fold_mirror_v (b : Board) (p o : Nat) (hwf : b.WF6x7) (hpo : p ≠ o)
    (hp : p ≠ 0) (ho : o ≠ 0) :
    window_fold (mirrorSwap p o b) o p vertical_windows .vertical
      = window_fold b p o vertical_windows .vertical := by
  simp [window_fold, vertical_windows, range3_eq, range7_eq, range4_eq,
    get_window_values]
  simp only [mirror_cell_0 b p o hwf hp ho, mirror_cell_1 b p o hwf hp ho,
    mirror_cell_2 b p o hwf hp ho, mirror_cell_3 b p o hwf hp ho,
    mirror_cell_4 b p o hwf hp ho, mirror_cell_5 b p o hwf hp ho,
    mirror_cell_6 b p o hwf hp ho]
  simp only [evaluate_window_swap p o hpo hp ho]
  ring

theorem window_fold_mirror_dd (b : Board) (p o : Nat) (hwf : b.WF6x7) (hpo : p ≠ o)
    (hp : p ≠ 0) (ho : o ≠ 0) :
    window_fold (mirrorSwap p o b) o p diagonal_down_windows .diagonal_down
      = window_fold b p o diagonal_up_windows .diagonal_up := by
  simp [window_fold, diagonal_down_windows, diagonal_up_windows, range3_eq,
    range33_eq, range4_eq, get_window_values]
  simp only [mirror_cell_0 b p o hwf hp ho, mirror_cell_1 b p o hwf hp ho,
    mirror_cell_2 b p o hwf hp ho, mirror_cell_3 b p o hwf hp ho,
    mirror_cell_4 b p o hwf hp ho, mirror_cell_5 b p o hwf hp ho,
    mirror_cell_6 b p o hwf hp ho]
  simp only [evaluate_window_swap_rev p o hpo hp ho]
  ring

theorem window_fold_mirror_du (b : Board) (p o : Nat) (hwf : b.WF6x7) (hpo : p ≠ o)
    (hp : p ≠ 0) (ho : o ≠ 0) :
    window_fold (mirrorSwap p o b) o p diagonal_up_windows .diagonal_up
      = window_fold b p o diagonal_down_windows .diagonal_down := by
  simp [window_fold, diagonal_down_windows, diagonal_up_windows, range3_eq,
    range33_eq, range4_eq, get_window_values]
  simp only [mirror_cell_0 b p o hwf hp ho, mirror_cell_1 b p o hwf hp ho,
    mirror_cell_2 b p o hwf hp ho, mirror_cell_3 b p o hwf hp ho,
    mirror_cell_4 b p o hwf hp ho, mirror_cell_5 b p o hwf hp ho,
    mirror_cell_6 b p o hwf hp ho]
  simp only [evaluate_window_swap_rev p o hpo hp ho]
  ring

theorem center_mirror (b : Board) (p o : Nat) (hwf : b.WF6x7) (hpo : p ≠ o)
    (hp : p ≠ 0) (ho : o ≠ 0) :
    center_bonus (mirrorSwap p o b) o = center_bonus b p := by
  simp only [center_bonus, mirrorSwap_rows, mirrorSwap_cols]
  rw [hwf.1, hwf.2.1]
  have hc1 : ((List.range 6).map fun r => (mirrorSwap p o b).getCell r (7 / 2)) =
      [b.getCell 0 3, b.getCell 1 3, b.getCell 2 3, b.getCell 3 3, b.getCell 4 3,
        b.getCell 5 3].map (swapCell p o) := by
    simp [range6_eq, mirror_cell_3 b p o hwf hp ho]
  have hc2 : ((List.range 6).map fun r => b.getCell r (7 / 2)) =
      [b.getCell 0 3, b.getCell 1 3, b.getCell 2 3, b.getCell 3 3, b.getCell 4 3,
        b.getCell 5 3] := by
    simp [range6_eq]
  rw [hc1, hc2, count_swap_o p o hpo]

/-- C8: evaluating a well-formed 6×7 board from player `p` (opponent `o`)
gives the same score as evaluating the transformed board — columns
reversed and `p`/`o` pieces swapped — from player `o` (opponent `p`),
for distinct nonzero players. -/
theorem evaluate_position_mirror (b : Board) (p o : Nat) (hwf : b.WF6x7)
    (hpo : p ≠ o) (hp : p ≠ 0) (ho : o ≠ 0) :
    evaluate_position b p o = evaluate_position (mirrorSwap p o b) o p := by
  unfold evaluate_position
  rw [positional_mirror b p o hwf hpo hp ho, window_fold_mirror_h b p o hwf hpo hp ho,
    window_fold_mirror_v b p o hwf hpo hp ho, window_fold_mirror_dd b p o hwf hpo hp ho,
    window_fold_mirror_du b p o hwf hpo hp ho, center_mirror b p o hwf hpo hp ho]
  ring

/-- Witness for C8 at a concrete board and the real player pair. -/
theorem evaluate_position_mirror_witness :
    evaluate_position tieBoard 2 1 = evaluate_position (mirrorSwap 2 1 tieBoard) 1 2 :=
  evaluate_position_mirror tieBoard 2 1 (by refine ⟨rfl, rfl, rfl, ?_⟩; decide)
    (by decide) (by decide) (by decide)

end Connect4

namespace Connect4

/-- The board of the C1 failing input. -/
def cacheBoard : Board :=
  ⟨6, 7, [[2,0,1,0,0,2,2],[2,0,2,2,0,1,2],[2,0,2,1,0,2,1],[1,0,1,2,0,1,2],
          [2,0,1,1,0,2,2],[2,1,1,2,1,1,2]]⟩

set_option maxHeartbeats 40000000 in
/-- C1 failing input: with the transposition cache enabled, `get_move`
(bot 1, opponent 2, search depth 4) picks column 4; with the no-op cache
(every lookup misses, stores discarded) it picks column 3.  The cache is
not a pure optimization of this code. -/
theorem cache_not_transparent :
    get_move 1 2 true 4 cacheBoard = some 4
    ∧ get_move 1 2 false 4 cacheBoard = some 3 :=
  ⟨by decide, by decide⟩

set_option maxHeartbeats 8000000 in
/-- C2 failing input: `_minimax` on `tieBoard` at depth 1, entered with
bounds `(-inf, +inf)` at a maximizing node, computes the finite value
−402 — strictly inside the entry bounds, the case the claim classifies as
`exact` — yet stores the entry with bound kind `upper`: the code
classifies against the loop-updated alpha, which at a maximizing node is
always ≥ the returned value, so a maximizing node never stores `exact`. -/
theorem store_kind_not_entry_bounds :
    minimax 2 1 true 1 tieBoard .negInf .posInf true [] =
      (.val (-402), [(tieBoard.grid, ⟨1, .val (-402), .upper⟩)])
    ∧ Score.lt .negInf (.val (-402)) = true
    ∧ Score.lt (.val (-402)) .posInf = true :=
  ⟨by decide, by decide, by decide⟩

end Connect4
